import Mathlib

/-!
Shallow embedding of the scraping-framework pipeline (src/enrich.js,
src/pipeline.js, src/utils.js, src/main.js) and proofs about its
checkpoint/resume, enrichment and discovery behaviour.

Conventions used throughout:
* JS `undefined`/`null` string values are `Option.none`; JS string truthiness
  is `strTruthy` (absent and `""` are falsy).
* External capabilities (the SIRENE registry search, the two geographic
  lookups, the browser page scan, the fallback search engine, the label
  tables of `constants.js` which is not among the sources) are inputs of the
  model, as are the per-item outcomes of fallible I/O.
* Exceptions are modelled with `Except`; a `try/catch` is a `match` on it.
-/

namespace Scrap

/-! ## JS string primitives -/

/-- Truthiness of a possibly absent JS string: `undefined`/`null` and the
empty string are falsy. -/
def strTruthy : Option String → Bool
  | none => false
  | some s => s != ""

/-- Naive substring occurrence on character lists. -/
def listIncludes (needle : List Char) : List Char → Bool
  | [] => needle.isEmpty
  | c :: cs => needle.isPrefixOf (c :: cs) || listIncludes needle cs

/-- JS `hay.includes(needle)`. -/
def jsIncludes (hay needle : String) : Bool :=
  listIncludes needle.toList hay.toList

/-! ## Decimal rendering of counters (`String(n).padStart(5, '0')`)

`decDigitsGo` is fuel-driven so that it is structural and fully evaluable;
with fuel above `n` it returns the base-10 digits of `n`, most significant
first. -/

def decDigitsGo : Nat → Nat → List Nat
  | 0, _ => []
  | fuel + 1, n => if n < 10 then [n] else decDigitsGo fuel (n / 10) ++ [n % 10]

/-- The base-10 digits of `n`, most significant first. -/
def decDigits (n : Nat) : List Nat := decDigitsGo (n + 1) n

/-- Reads a digit list back as a number (leading zeros are harmless). -/
def undigits (ds : List Nat) : Nat := ds.foldl (fun a d => 10 * a + d) 0

/-- Reads a digit character back (`'0'` ↦ 0, …, `'9'` ↦ 9). -/
def charToDigit (c : Char) : Nat := c.toNat - 48

/-- `String(n).padStart(5, '0')` as a character list. -/
def padded5 (n : Nat) : List Char :=
  let s := (decDigits n).map Nat.digitChar
  List.replicate (5 - s.length) '0' ++ s

/-- `"ENT-" + String(n).padStart(5, '0')` — the entity id issued for counter
value `n` (src/enrich.js line 57). -/
def entId (n : Nat) : String := ("ENT-".toList ++ padded5 n).asString

/-- `"PER-" + String(n).padStart(5, '0')` — the principal id issued for
counter value `n` (src/enrich.js line 93). -/
def perId (n : Nat) : String := ("PER-".toList ++ padded5 n).asString

/-- Decodes the numeric part of an `ENT-`/`PER-` id (drops the 4-character
prefix; padding zeros do not change the value). -/
def idNum (s : String) : Nat := undigits ((s.toList.drop 4).map charToDigit)

/-! ## Data model

`DetailRecord` models the entries of the `details` checkpoint: `nom`/`lien`
from the listing merged with the adapter-extracted fields that the later
stages read (`website`, `codePostal`); the remaining free-form adapter fields
(description, secteur, …) are opaque to every computation modelled here and
are omitted. -/

structure DetailRecord where
  nom : String
  lien : String
  website : Option String := none
  codePostal : Option String := none
  deriving Repr, DecidableEq

/-- A director/officer entry of a registry candidate. -/
structure Dirigeant where
  type_dirigeant : String := ""
  qualite : Option String := none
  prenoms : String := ""
  nom : String := ""
  deriving Repr, DecidableEq

/-- One year of a candidate's financial history (`finances[year]`). -/
structure FinanceEntry where
  ca : Option Int := none
  deriving Repr, DecidableEq

structure Siege where
  adresse : String := ""
  libelle_commune : String := ""
  departement : String := ""
  region : String := ""
  deriving Repr, DecidableEq

/-- A SIRENE registry candidate (`rawData.results[i]`). `finances` is the
financial-history-by-year mapping (`none` = absent, keys are the years). -/
structure Candidate where
  nom_complet : String := ""
  nom_raison_sociale : String := ""
  siren : String := ""
  siege : Siege := {}
  finances : Option (List (Int × FinanceEntry)) := none
  activite_principale : Option String := none
  tranche_effectif_salarie : Option String := none
  annee_tranche_effectif_salarie : Option Int := none
  dirigeants : Option (List Dirigeant) := none
  deriving Repr, DecidableEq

/-- A principal sub-record (`dirigeants[i]` of an enriched record). -/
structure Principal where
  id : String
  prenom : String
  nom : String
  fonction : String
  entreprise : String
  idEntreprise : String
  deriving Repr, DecidableEq

/-- A JS number as produced by `Math.max` over integer keys: an integer or
`-Infinity` (the value of `Math.max()` of no arguments). -/
inductive JsNum where
  | num (n : Int)
  | negInf
  deriving Repr, DecidableEq

/-- `Math.max(...ks)`. -/
def jsMax : List Int → JsNum
  | [] => .negInf
  | k :: ks => .num (ks.foldl max k)

/-- JS truthiness of the `latestYear` value: `null` and `0` are falsy,
`-Infinity` is truthy. -/
def jsNumTruthy : Option JsNum → Bool
  | none => false
  | some .negInf => true
  | some (.num n) => n != 0

/-- `const latestYear = d.finances ? Math.max(...Object.keys(d.finances).map(Number)) : null`
(src/enrich.js line 72). The record field `sirene_annee_ca` is
`latestYear ?? ""`, i.e. this same value with `none` standing for `""`. -/
def latestYearOf (fin : Option (List (Int × FinanceEntry))) : Option JsNum :=
  fin.map (fun m => jsMax (m.map Prod.fst))

/-- `finalCompany.sirene_ca = latestYear ? d.finances[latestYear]?.ca ?? "" : ""`
(src/enrich.js line 81); `none` stands for the empty string written on the
record. -/
def sireneCaOf (fin : Option (List (Int × FinanceEntry))) : Option Int :=
  if jsNumTruthy (latestYearOf fin) then
    match latestYearOf fin, fin with
    | some (JsNum.num y), some m => (m.lookup y).bind (fun e => e.ca)
    | _, _ => none
  else none

/-- An enriched record (entry of the `enriched` checkpoint): either a match
record or a placeholder. `none` fields model absent/null JS keys. -/
structure EnrichedRecord where
  id : Option String := none
  scrap_nom : Option String := none
  scrap_lien : Option String := none
  scrap_website : Option String := none
  scrap_codePostal : Option String := none
  sirene_siren : Option String := none
  sirene_adresse : Option String := none
  sirene_ville : Option String := none
  siren_departement_code : Option String := none
  sirene_departement : Option String := none
  sirene_region : Option String := none
  sirene_activite : Option String := none
  sirene_ca : Option Int := none
  sirene_annee_ca : Option JsNum := none
  sirene_effectifs : Option String := none
  sirene_annee_effectifs : Option Int := none
  domain : Option String := none
  dirigeants : List Principal := []
  deriving Repr, DecidableEq

/-! ## URL helpers

`urlOrigin` is an executable model of the JS `URL` built-in restricted to
what the pipeline feeds it: `origin` is the scheme plus the host (everything
between `://` and the next `/`); an empty host makes the constructor throw
(`none`). -/

/-- Splits a character list at the first occurrence of `://`. -/
def splitScheme : List Char → Option (List Char × List Char)
  | [] => none
  | c :: cs =>
    if [':', '/', '/'].isPrefixOf (c :: cs) then some ([], cs.drop 2)
    else
      match splitScheme cs with
      | some (a, b) => some (c :: a, b)
      | none => none

def urlOrigin (value : String) : Option String :=
  let u := if jsIncludes value "://" then value else "https://" ++ value
  match splitScheme u.toList with
  | none => none
  | some (scheme, rest) =>
    let host := rest.takeWhile (fun c => c ≠ '/')
    if host.isEmpty then none
    else some ((scheme ++ [':', '/', '/'] ++ host).asString)

/-- `(new URL(value.includes('://') ? value : 'https://' + value)).origin + '/'`
(src/enrich.js line 66); `none` where the constructor throws. -/
def scrapWebsiteOf (w : String) : Option String :=
  (urlOrigin w).map (fun o => o ++ "/")

/-- `scrap_website.replace(/^(https?:\/\/)?(www\.)?/, '').split('/')[0]`
(src/enrich.js line 88). -/
def domainOf (w : String) : String :=
  let cs := w.toList
  let cs1 :=
    if "https://".toList.isPrefixOf cs then cs.drop 8
    else if "http://".toList.isPrefixOf cs then cs.drop 7
    else cs
  let cs2 := if "www.".toList.isPrefixOf cs1 then cs1.drop 4 else cs1
  (cs2.takeWhile (fun c => c ≠ '/')).asString

/-! ## SIRENE enrichment stage (src/enrich.js, `enrichWithSirene`) -/

/-- Outcome of the registry lookup for one company: `fetchError` covers a
thrown `fetch`, a non-ok status and a JSON parse failure (all reach the same
`catch`); `ok` carries `rawData.results`. -/
inductive SireneOutcome where
  | fetchError
  | ok (results : List Candidate)

/-- Result of a geographic label lookup, after its `.catch` fallback. -/
structure GeoInfo where
  code : String := ""
  nom : String := ""

/-- External capabilities and configuration of the SIRENE stage. The label
tables and the exclusion list live in `constants.js`, which is not among the
sources; they are inputs of the model. -/
structure SireneCtx where
  api : DetailRecord → SireneOutcome
  geoDept : String → GeoInfo
  geoRegion : String → GeoInfo
  divisionActivite : String → Option String
  tranchesEffectifs : String → Option String
  rolesAExclure : List String

/-- `constants.DIVISION_ACTIVITE_PRINCIPALE[d.activite_principale?.split('.')[0]] ?? ""`. -/
def activiteLabel (ctx : SireneCtx) (ap : Option String) : String :=
  match ap with
  | none => ""
  | some s => (ctx.divisionActivite ((s.toList.takeWhile (fun c => c ≠ '.')).asString)).getD ""

/-- `constants.TRANCHES_EFFECTIFS[d.tranche_effectif_salarie] ?? ""`. -/
def effectifsLabel (ctx : SireneCtx) (t : Option String) : String :=
  match t with
  | none => ""
  | some s => (ctx.tranchesEffectifs s).getD ""

/-- `(d.dirigeants ?? []).filter(type physique).filter(role not excluded)`
(src/enrich.js lines 90-92). -/
def keptDirigeants (ctx : SireneCtx) (d : Candidate) : List Dirigeant :=
  ((d.dirigeants.getD []).filter (fun g => g.type_dirigeant == "personne physique")).filter
    (fun g =>
      !(match g.qualite with
        | some q => ctx.rolesAExclure.contains q
        | none => false))

/-- Builds the principal list of one candidate, threading the
`++dirigeantsIdCounter` issuance (src/enrich.js lines 92-99). -/
def issuePrincipals (companyNom uniqueID : String) (ctr : Nat) :
    List Dirigeant → List Principal × Nat
  | [] => ([], ctr)
  | g :: gs =>
    let p : Principal :=
      { id := perId (ctr + 1), prenom := g.prenoms, nom := g.nom,
        fonction := g.qualite.getD "", entreprise := companyNom,
        idEntreprise := uniqueID }
    let r := issuePrincipals companyNom uniqueID (ctr + 1) gs
    (p :: r.1, r.2)

/-- The match record built for one surviving candidate (src/enrich.js
lines 62-100). -/
def buildMatchRecord (ctx : SireneCtx) (c : DetailRecord) (uniqueID : String)
    (sw : Option String) (d : Candidate) (principals : List Principal) : EnrichedRecord :=
  let dept := ctx.geoDept d.siege.departement
  let reg := ctx.geoRegion d.siege.region
  { id := some uniqueID
    scrap_nom := some c.nom
    scrap_lien := some c.lien
    scrap_website := sw
    scrap_codePostal := c.codePostal
    sirene_siren := some d.siren
    sirene_adresse := some d.siege.adresse
    sirene_ville := some d.siege.libelle_commune
    siren_departement_code := some dept.code
    sirene_departement := some dept.nom
    sirene_region := some reg.nom
    sirene_activite := some (activiteLabel ctx d.activite_principale)
    sirene_ca := sireneCaOf d.finances
    sirene_annee_ca := latestYearOf d.finances
    sirene_effectifs := some (effectifsLabel ctx d.tranche_effectif_salarie)
    sirene_annee_effectifs := d.annee_tranche_effectif_salarie
    domain := sw.map domainOf
    dirigeants := principals }

/-- Per-candidate outcome inside the `for (let d of data)` loop. -/
inductive CandOutcome where
  | pushed (r : EnrichedRecord)
  | skipped
  | threw

/-- The `scrap_website` value of a candidate's record: absent stays absent,
a present `website` goes through the `URL` transformation, which may throw. -/
def candWebsite (c : DetailRecord) : Except Unit (Option String) :=
  match c.website with
  | none => .ok none
  | some w =>
    match scrapWebsiteOf w with
    | none => .error ()
    | some sw => .ok (some sw)

/-- One iteration of the candidate loop: issue the entity id, transform the
website (the `URL` constructor may throw), run the mandatory-field check
(`continue` keeps the already-incremented counter), then build the record
and its principals (src/enrich.js lines 56-102). -/
def processCandidate (ctx : SireneCtx) (c : DetailRecord) (entCtr perCtr : Nat)
    (d : Candidate) : CandOutcome × Nat × Nat :=
  let entCtr1 := entCtr + 1
  let uniqueID := entId entCtr1
  match candWebsite c with
  | .error _ => (.threw, entCtr1, perCtr)
  | .ok sw =>
    if !strTruthy sw || !strTruthy (some c.nom) || !strTruthy c.codePostal then
      (.skipped, entCtr1, perCtr)
    else
      let r := issuePrincipals c.nom uniqueID perCtr (keptDirigeants ctx d)
      (.pushed (buildMatchRecord ctx c uniqueID sw d r.1), entCtr1, r.2)

/-- The candidate loop: records pushed for the company and the final counter
values; a thrown exception aborts the remaining candidates (the `catch` at
the company level swallows it). -/
def candidateLoop (ctx : SireneCtx) (c : DetailRecord) :
    List Candidate → Nat → Nat → List EnrichedRecord × Nat × Nat
  | [], entCtr, perCtr => ([], entCtr, perCtr)
  | d :: ds, entCtr, perCtr =>
    match processCandidate ctx c entCtr perCtr d with
    | (.threw, e1, p1) => ([], e1, p1)
    | (.skipped, e1, p1) => candidateLoop ctx c ds e1 p1
    | (.pushed r, e1, p1) =>
      let rest := candidateLoop ctx c ds e1 p1
      (r :: rest.1, rest.2)

/-- `rawData.results.filter(d => d.nom_complet.includes(company.nom) ||
d.nom_raison_sociale.includes(company.nom))` (src/enrich.js line 54). -/
def matchFilter (c : DetailRecord) (results : List Candidate) : List Candidate :=
  results.filter (fun d =>
    jsIncludes d.nom_complet c.nom || jsIncludes d.nom_raison_sociale c.nom)

/-- The placeholder appended in the `finally` block when no candidate was
pushed (src/enrich.js lines 117-127): the company's fields under the
`scrap_` prefix, a null `sirene_siren` and an empty `dirigeants` list. -/
def placeholderOf (c : DetailRecord) : EnrichedRecord :=
  { scrap_nom := some c.nom, scrap_lien := some c.lien,
    scrap_website := c.website, scrap_codePostal := c.codePostal,
    sirene_siren := none, dirigeants := [] }

/-- The `try` part for one company: no postal code and a failed lookup push
nothing; otherwise the filtered candidates run through the candidate loop. -/
def sireneTry (ctx : SireneCtx) (c : DetailRecord) (entCtr perCtr : Nat) :
    List EnrichedRecord × Nat × Nat :=
  if !strTruthy c.codePostal then ([], entCtr, perCtr)
  else
    match ctx.api c with
    | .fetchError => ([], entCtr, perCtr)
    | .ok results => candidateLoop ctx c (matchFilter c results) entCtr perCtr

/-- The whole `try/catch/finally` body for one company: the records appended
for it (`finally` adds exactly one placeholder when none was pushed) and the
new counter values. -/
def sireneBody (ctx : SireneCtx) (c : DetailRecord) (entCtr perCtr : Nat) :
    List EnrichedRecord × Nat × Nat :=
  let t := sireneTry ctx c entCtr perCtr
  (if t.1.isEmpty then [placeholderOf c] else t.1, t.2)

/-- Mutable state of the stage: the in-memory `enrichedCompanies` array, the
two id counters and the trace of `setStep` snapshots. -/
structure SireneState where
  enriched : List EnrichedRecord
  entCtr : Nat
  perCtr : Nat
  saves : List (List EnrichedRecord) := []

/-- One iteration of `for (const company of companiesToEnrich)`: skip if the
name is in the done set, otherwise run the body and persist (src/enrich.js
lines 31-131). -/
def stepCompany (ctx : SireneCtx) (done : List (Option String)) (st : SireneState)
    (c : DetailRecord) : SireneState :=
  if done.contains (some c.nom) then st
  else
    let b := sireneBody ctx c st.entCtr st.perCtr
    let enriched1 := st.enriched ++ b.1
    { enriched := enriched1, entCtr := b.2.1, perCtr := b.2.2,
      saves := st.saves ++ [enriched1] }

def sireneLoop (ctx : SireneCtx) (done : List (Option String)) (st : SireneState)
    (cs : List DetailRecord) : SireneState :=
  cs.foldl (stepCompany ctx done) st

/-- `enrichWithSirene` (src/enrich.js lines 14-135): the done set is the
`scrap_nom`s of the checkpoint, the entity counter is seeded from the number
of checkpointed records and the principal counter from the sum of their
`dirigeants` lengths. -/
def enrichWithSirene (ctx : SireneCtx) (details : List DetailRecord)
    (enriched0 : List EnrichedRecord) : SireneState :=
  sireneLoop ctx (enriched0.map (fun r => r.scrap_nom))
    { enriched := enriched0,
      entCtr := enriched0.length,
      perCtr := (enriched0.map (fun r => r.dirigeants.length)).sum,
      saves := [] } details

/-- The ids issued while a counter moves from `a` to `b`
(`mk (a+1), …, mk b`). -/
def idsRange (mk : Nat → String) (a b : Nat) : List String :=
  (List.range' (a + 1) (b - a)).map mk

/-- All principal ids stored in a list of enriched records, in order. -/
def principalIds (rs : List EnrichedRecord) : List String :=
  (rs.map (fun r => r.dirigeants.map (fun p => p.id))).flatten

/-! ### Concrete SIRENE inputs used by witnesses and the C2 counterexample -/

def sirCandA1 : Candidate := { nom_complet := "Alpha SA", siren := "111111111" }

def sirCandA2 : Candidate := { nom_complet := "Alpha Group", siren := "222222222" }

def sirCandB : Candidate :=
  { nom_complet := "Beta SA", siren := "333333333",
    dirigeants := some
      [{ type_dirigeant := "personne physique", qualite := some "President",
         prenoms := "Ada", nom := "Lovelace" }] }

def sirCandG : Candidate := { nom_complet := "Gamma SA", siren := "444444444" }

/-- `Alpha` has no website: its candidates pass the name filter but are all
discarded by the mandatory-field check, after consuming entity ids. -/
def sirA : DetailRecord := { nom := "Alpha", lien := "https://d/a", codePostal := some "75001" }

def sirB : DetailRecord :=
  { nom := "Beta", lien := "https://d/b", website := some "https://beta.example",
    codePostal := some "75001" }

def sirG : DetailRecord :=
  { nom := "Gamma", lien := "https://d/c", website := some "https://gamma.example",
    codePostal := some "75001" }

def sirCtx : SireneCtx :=
  { api := fun c =>
      if c.nom == "Alpha" then .ok [sirCandA1, sirCandA2]
      else if c.nom == "Beta" then .ok [sirCandB]
      else if c.nom == "Gamma" then .ok [sirCandG]
      else .fetchError,
    geoDept := fun _ => {}, geoRegion := fun _ => {},
    divisionActivite := fun _ => none, tranchesEffectifs := fun _ => none,
    rolesAExclure := ["Administrateur"] }

/-! ## Social-profile discovery stage (src/enrich.js, `enrichWithLinkedIn`) -/

/-- Outcome of one `page.goto` navigation attempt: success, a thrown
`TimeoutError`, or any other thrown error. -/
inductive NavResult where
  | ok
  | timeout
  | hardErr
  deriving Repr, DecidableEq

/-- The per-company external world of the discovery stage: the two navigation
attempts, the platform links found on the page (`a[href*="linkedin.com"]`),
and the fallback search outcome — `error` models a throw reaching the outer
catch, `ok` carries the cleaned (redirect-unwrapped) result links. -/
structure NavWorld where
  nav1 : NavResult := .ok
  nav2 : NavResult := .ok
  pageLinks : List String := []
  ddg : Except Unit (List String) := .ok []

/-- An entry of the `final` checkpoint: `{ ...company, linkedinUrl }`. -/
structure FinalRecord where
  base : EnrichedRecord
  linkedinUrl : String
  deriving Repr, DecidableEq

/-- On-site link prioritization (src/enrich.js lines 205-219): first link
containing `/company/`, else the first remaining platform link, else none. -/
def selectSiteLink (links : List String) : String :=
  match links.filter (fun h => jsIncludes h "/company/") with
  | l :: _ => l
  | [] =>
    match links.filter (fun h => !jsIncludes h "/company/") with
    | l :: _ => l
    | [] => ""

/-- Fallback-search prioritization (src/enrich.js lines 252-259): `/company/`
first, then `/showcase/`, else none. -/
def selectDdgLink (cleaned : List String) : String :=
  match cleaned.filter (fun h => jsIncludes h "/company/") with
  | l :: _ => l
  | [] =>
    match cleaned.filter (fun h => jsIncludes h "/showcase/") with
    | l :: _ => l
    | [] => ""

/-- JS `s.startsWith(pre)`. -/
def jsStartsWith (s pre : String) : Bool := pre.toList.isPrefixOf s.toList

/-- `company.scrap_website && company.scrap_website.startsWith('http')`. -/
def linkedinWebsiteOk (c : EnrichedRecord) : Bool :=
  strTruthy c.scrap_website && jsStartsWith (c.scrap_website.getD "") "http"

/-- The post-navigation part: on-site scan, then fallback search when nothing
was found; a throw during the fallback reaches the outer catch, which pushes
the error sentinel. -/
def linkedinScan (w : NavWorld) (c : EnrichedRecord) : FinalRecord :=
  let sel := selectSiteLink w.pageLinks
  if sel != "" then { base := c, linkedinUrl := sel }
  else
    match w.ddg with
    | .error _ => { base := c, linkedinUrl := "ERREUR" }
    | .ok cleaned => { base := c, linkedinUrl := selectDdgLink cleaned }

/-- The whole per-company body of the discovery stage (src/enrich.js
lines 176-290): no usable website goes straight to an empty profile URL; a
first-attempt success or second-attempt success proceeds to the scan; two
timeouts leave the empty URL; a non-timeout final failure forces the
`'ERREUR'` sentinel and skips the scan. -/
def linkedinProcess (w : NavWorld) (c : EnrichedRecord) : FinalRecord :=
  if !linkedinWebsiteOk c then { base := c, linkedinUrl := "" }
  else
    match w.nav1 with
    | .ok => linkedinScan w c
    | _ =>
      match w.nav2 with
      | .ok => linkedinScan w c
      | .timeout => { base := c, linkedinUrl := "" }
      | .hardErr => { base := c, linkedinUrl := "ERREUR" }

/-- Mutable state of the discovery stage: the in-memory `finalData` array and
the trace of `setStep` snapshots. -/
structure LinkedinState where
  finalData : List FinalRecord
  saves : List (List FinalRecord) := []

def linkedinStep (worlds : EnrichedRecord → NavWorld) (done : List (Option String))
    (st : LinkedinState) (c : EnrichedRecord) : LinkedinState :=
  if done.contains c.scrap_nom then st
  else
    { finalData := st.finalData ++ [linkedinProcess (worlds c) c],
      saves := st.saves ++ [st.finalData ++ [linkedinProcess (worlds c) c]] }

/-- `enrichWithLinkedIn` (src/enrich.js lines 141-296): only records with a
truthy `sirene_siren` are processed; the done set is the `scrap_nom`s of the
`final` checkpoint; each processed record is appended and persisted. -/
def enrichWithLinkedIn (worlds : EnrichedRecord → NavWorld)
    (allProcessed : List EnrichedRecord) (final0 : List FinalRecord) : LinkedinState :=
  (allProcessed.filter (fun c => strTruthy c.sirene_siren)).foldl
    (linkedinStep worlds (final0.map (fun r => r.base.scrap_nom)))
    { finalData := final0, saves := [] }

/-- The successive checkpoint snapshots produced by appending `recs` one at a
time on top of `base`. -/
def snapshots (base : List FinalRecord) : List FinalRecord → List (List FinalRecord)
  | [] => []
  | r :: rs => (base ++ [r]) :: snapshots (base ++ [r]) rs

/-- Concrete inputs for the C3 witness. -/
def liMatch : EnrichedRecord :=
  { scrap_nom := some "Beta", scrap_website := some "https://beta.example/",
    sirene_siren := some "333333333" }

def liWorldTimeout : NavWorld := { nav1 := .timeout, nav2 := .timeout }

def liWorldHard : NavWorld := { nav1 := .timeout, nav2 := .hardErr }

/-! ## Detail Fetch stage (src/pipeline.js / src/unnamed/part_005,
`runGetDetailsStep`) -/

/-- An entry of the `urls` checkpoint. -/
structure UrlItem where
  nom : String
  lien : String
  deriving Repr, DecidableEq

/-- The adapter-extracted fields merged into a detail record (the fields the
later stages read; `getDetails` returns no `nom`/`lien`). -/
structure DetailPayload where
  website : Option String := none
  codePostal : Option String := none
  deriving Repr, DecidableEq

/-- `{ nom: item.nom, lien: item.lien, ...detailedData }`. -/
def mkDetail (item : UrlItem) (p : DetailPayload) : DetailRecord :=
  { nom := item.nom, lien := item.lien, website := p.website, codePostal := p.codePostal }

/-- Mutable state of the stage: the in-memory `detailsAlreadyDone` array and
the trace of `setStep` snapshots. -/
structure DetailsState where
  details : List DetailRecord
  saves : List (List DetailRecord) := []

/-- One iteration of `for (const item of urlsToScrape)`: skip if the link is
in the done set; a thrown `getDetails` is caught and logged (nothing is
appended); on success the merged record is appended and persisted. The
adapter is a deterministic per-link outcome, `none` modelling a throw. -/
def detailsStep (adapter : String → Option DetailPayload) (done : List String)
    (st : DetailsState) (item : UrlItem) : DetailsState :=
  if done.contains item.lien then st
  else
    match adapter item.lien with
    | none => st
    | some p =>
      { details := st.details ++ [mkDetail item p],
        saves := st.saves ++ [st.details ++ [mkDetail item p]] }

/-- `runGetDetailsStep`: the done set is the `lien`s of the `details`
checkpoint, computed once before the loop. -/
def runGetDetailsStep (adapter : String → Option DetailPayload) (urls : List UrlItem)
    (details0 : List DetailRecord) : DetailsState :=
  urls.foldl (detailsStep adapter (details0.map (fun r => r.lien)))
    { details := details0, saves := [] }

/-! ## Checkpoint store (src/utils.js / src/unnamed/part_002) -/

/-- The observable states of one stage's checkpoint file. -/
inductive CheckpointFile (α : Type) where
  | missing
  | unreadable
  | corrupt
  | parsed (records : List α)
  deriving Repr, DecidableEq

/-- The raw read: `fs.access` throws `ENOENT` on a missing file, `readFile`
throws on an unreadable one, `JSON.parse` throws on corrupt content. -/
def rawReadStep (α : Type) : CheckpointFile α → Except String (List α)
  | .missing => .error "ENOENT"
  | .unreadable => .error "EACCES"
  | .corrupt => .error "SyntaxError"
  | .parsed rs => .ok rs

/-- `getStep` (src/utils.js lines 11-29): the read+parse is wrapped in
try/catch; every failure is logged (or, for `ENOENT`, silently ignored) and
`[]` is returned. -/
def getStep (α : Type) (f : CheckpointFile α) : List α :=
  match rawReadStep α f with
  | .ok rs => rs
  | .error _ => []

/-- The raw write: `mkdir`+`writeFile`, rewriting the whole sequence; throws
when the checkpoint directory or file is unwritable. -/
def rawWriteStep (α : Type) (writable : Bool) (data : List α) :
    Except String (CheckpointFile α) :=
  if writable then .ok (.parsed data) else .error "EACCES"

/-- `setStep` (src/utils.js lines 38-57): the write is wrapped in try/catch —
on failure the error is logged to the console and swallowed, the file keeps
its previous state, and the caller never observes the failure. -/
def setStep (α : Type) (writable : Bool) (f : CheckpointFile α) (data : List α) :
    CheckpointFile α :=
  match rawWriteStep α writable data with
  | .ok f1 => f1
  | .error _ => f

/-- The Detail Fetch loop with persistence through the checkpoint file: the
state is the file plus the in-memory array; each successful item is appended
and written via `setStep` (which never throws). -/
def detailsStepFS (adapter : String → Option DetailPayload) (writable : Bool)
    (done : List String) (st : CheckpointFile DetailRecord × List DetailRecord)
    (item : UrlItem) : CheckpointFile DetailRecord × List DetailRecord :=
  if done.contains item.lien then st
  else
    match adapter item.lien with
    | none => st
    | some p =>
      (setStep DetailRecord writable st.1 (st.2 ++ [mkDetail item p]),
        st.2 ++ [mkDetail item p])

def runGetDetailsStepFS (adapter : String → Option DetailPayload) (writable : Bool)
    (urls : List UrlItem) (f0 : CheckpointFile DetailRecord) :
    CheckpointFile DetailRecord × List DetailRecord :=
  urls.foldl (detailsStepFS adapter writable ((getStep DetailRecord f0).map (fun r => r.lien)))
    (f0, getStep DetailRecord f0)

/-- `main` (src/main.js / src/unnamed/part_004): the stages run inside a
try/catch whose catch prints a diagnostic and calls `process.exit(1)`; the
only modelled error reaching it is the dynamic-import failure of the scraper
module, because every stage body is total — all per-item failures and all
checkpoint-write failures are caught inside the loops. Returns the process
exit code. -/
def mainExitCode (adapterResolves writable : Bool)
    (adapter : String → Option DetailPayload) (urls : List UrlItem)
    (f0 : CheckpointFile DetailRecord) : Nat :=
  match (if adapterResolves then
      Except.ok (runGetDetailsStepFS adapter writable urls f0)
    else Except.error "ERR_MODULE_NOT_FOUND" :
      Except String (CheckpointFile DetailRecord × List DetailRecord)) with
  | .ok _ => 0
  | .error _ => 1

def c8item : UrlItem := { nom := "Beta", lien := "https://d/b" }

def c8payload : DetailPayload :=
  { website := some "https://beta.example", codePostal := some "75001" }

def c8adapter : String → Option DetailPayload := fun _ => some c8payload

/-! ## Theorems -/

theorem undigits_append_last (ds : List Nat) (d : Nat) :
    undigits (ds ++ [d]) = 10 * undigits ds + d := by
  simp [undigits, List.foldl_append]

theorem undigits_decDigitsGo (fuel : Nat) : ∀ n : Nat, n < fuel →
    undigits (decDigitsGo fuel n) = n := by
  induction fuel with
  | zero => intro n h; omega
  | succ f ih =>
    intro n h
    by_cases h10 : n < 10
    · simp [decDigitsGo, h10, undigits]
    · have hdiv : n / 10 < f := by
        have h1 : n / 10 < n := Nat.div_lt_self (by omega) (by omega)
        omega
      rw [decDigitsGo, if_neg h10, undigits_append_last, ih _ hdiv]
      omega

theorem undigits_decDigits (n : Nat) : undigits (decDigits n) = n :=
  undigits_decDigitsGo (n + 1) n (Nat.lt_succ_self n)

theorem decDigitsGo_lt_ten (fuel : Nat) : ∀ n : Nat, ∀ d ∈ decDigitsGo fuel n, d < 10 := by
  induction fuel with
  | zero => intro n d hd; simp [decDigitsGo] at hd
  | succ f ih =>
    intro n d hd
    by_cases h10 : n < 10
    · simp [decDigitsGo, h10] at hd; omega
    · rw [decDigitsGo, if_neg h10] at hd
      rcases List.mem_append.1 hd with h | h
      · exact ih _ _ h
      · simp at h; omega

theorem charToDigit_digitChar (d : Nat) (h : d < 10) :
    charToDigit (Nat.digitChar d) = d := by
  interval_cases d <;> rfl

theorem undigits_replicate_zero (k : Nat) (ds : List Nat) :
    undigits (List.replicate k 0 ++ ds) = undigits ds := by
  induction k with
  | zero => rfl
  | succ j ih => simpa [List.replicate_succ, undigits] using ih

theorem idNum_padded5 (pre : List Char) (h4 : pre.length = 4) (n : Nat) :
    undigits (((pre ++ padded5 n).drop 4).map charToDigit) = n := by
  have hdrop : (pre ++ padded5 n).drop 4 = padded5 n := by
    rw [List.drop_append_of_le_length (by omega)]
    simp [h4]
  rw [hdrop]
  show undigits ((List.replicate _ '0' ++ (decDigits n).map Nat.digitChar).map charToDigit) = n
  rw [List.map_append, List.map_replicate]
  have hz : charToDigit '0' = 0 := rfl
  rw [hz, undigits_replicate_zero, List.map_map]
  have hmap : (decDigits n).map (charToDigit ∘ Nat.digitChar) = decDigits n := by
    have := List.map_congr_left (l := decDigits n)
      (f := charToDigit ∘ Nat.digitChar) (g := id) ?_
    · simpa using this
    · intro d hd
      exact charToDigit_digitChar d (decDigitsGo_lt_ten _ _ d hd)
  rw [hmap, undigits_decDigits]

theorem idNum_entId (n : Nat) : idNum (entId n) = n := by
  have hdata : (entId n).toList = "ENT-".toList ++ padded5 n := rfl
  rw [idNum, hdata, idNum_padded5]
  rfl

theorem idNum_perId (n : Nat) : idNum (perId n) = n := by
  have hdata : (perId n).toList = "PER-".toList ++ padded5 n := rfl
  rw [idNum, hdata, idNum_padded5]
  rfl

theorem entId_injective : Function.Injective entId := by
  intro a b h
  have := congrArg idNum h
  rwa [idNum_entId, idNum_entId] at this

theorem perId_injective : Function.Injective perId := by
  intro a b h
  have := congrArg idNum h
  rwa [idNum_perId, idNum_perId] at this

/-! ## Structural lemmas about id issuance -/

theorem idsRange_self (mk : Nat → String) (a : Nat) : idsRange mk a a = [] := by
  simp [idsRange]

theorem idsRange_length (mk : Nat → String) (a b : Nat) :
    (idsRange mk a b).length = b - a := by
  simp [idsRange]

theorem idsRange_nodup (mk : Nat → String) (hinj : Function.Injective mk) (a b : Nat) :
    (idsRange mk a b).Nodup :=
  (List.nodup_range' _ _).map hinj

theorem idsRange_succ (mk : Nat → String) (a n : Nat) :
    idsRange mk a (a + (n + 1)) = mk (a + 1) :: idsRange mk (a + 1) (a + 1 + n) := by
  simp [idsRange, List.range'_succ]

theorem idsRange_append (mk : Nat → String) (a b c : Nat) (hab : a ≤ b) (hbc : b ≤ c) :
    idsRange mk a b ++ idsRange mk b c = idsRange mk a c := by
  rw [idsRange, idsRange, idsRange, ← List.map_append]
  congr 1
  have h1 : b + 1 = (a + 1) + (b - a) := by omega
  rw [h1, List.range'_append_1]
  congr 1
  omega

theorem mem_idsRange (mk : Nat → String) (a b x : Nat) :
    mk x ∈ idsRange mk a b → Function.Injective mk → a + 1 ≤ x ∧ x < a + 1 + (b - a) := by
  intro hx hinj
  rw [idsRange, List.mem_map] at hx
  obtain ⟨k, hk, hkx⟩ := hx
  rw [List.mem_range'_1] at hk
  rwa [← hinj hkx]

theorem idsRange_append_nodup (mk : Nat → String) (hinj : Function.Injective mk)
    (a b c : Nat) (hab : a ≤ b) (hbc : b ≤ c) :
    (idsRange mk a b ++ idsRange mk b c).Nodup := by
  rw [List.nodup_append]
  refine ⟨idsRange_nodup mk hinj a b, idsRange_nodup mk hinj b c, ?_⟩
  intro x hx hx'
  rw [idsRange, List.mem_map] at hx hx'
  obtain ⟨k, hk, rfl⟩ := hx
  obtain ⟨j, hj, hjx⟩ := hx'
  rw [List.mem_range'_1] at hk hj
  have := hinj hjx
  omega

theorem principalIds_append (xs ys : List EnrichedRecord) :
    principalIds (xs ++ ys) = principalIds xs ++ principalIds ys := by
  simp [principalIds]

theorem principalIds_length (rs : List EnrichedRecord) :
    (principalIds rs).length = (rs.map (fun r => r.dirigeants.length)).sum := by
  induction rs with
  | nil => rfl
  | cons r rest ih => simp [principalIds] at ih ⊢; omega

/-! ## Per-level specifications of the SIRENE stage -/

theorem issuePrincipals_spec (companyNom uniqueID : String) :
    ∀ (gs : List Dirigeant) (ctr : Nat),
      (issuePrincipals companyNom uniqueID ctr gs).2 = ctr + gs.length ∧
      (issuePrincipals companyNom uniqueID ctr gs).1.map (fun p => p.id) =
        idsRange perId ctr (ctr + gs.length) ∧
      ∀ p ∈ (issuePrincipals companyNom uniqueID ctr gs).1,
        p.idEntreprise = uniqueID ∧ p.entreprise = companyNom := by
  intro gs
  induction gs with
  | nil =>
    intro ctr
    refine ⟨rfl, ?_, by intro p hp; simp [issuePrincipals] at hp⟩
    simp [issuePrincipals, idsRange_self]
  | cons g rest ih =>
    intro ctr
    obtain ⟨h2, hmap, hcons⟩ := ih (ctr + 1)
    refine ⟨?_, ?_, ?_⟩
    · show (issuePrincipals companyNom uniqueID (ctr + 1) rest).2 = ctr + (rest.length + 1)
      omega
    · show perId (ctr + 1) ::
        (issuePrincipals companyNom uniqueID (ctr + 1) rest).1.map (fun p => p.id) =
        idsRange perId ctr (ctr + (rest.length + 1))
      rw [hmap, idsRange_succ]
    · intro p hp
      rcases List.mem_cons.1 hp with rfl | hp
      · exact ⟨rfl, rfl⟩
      · exact hcons p hp

theorem processCandidate_entCtr (ctx : SireneCtx) (c : DetailRecord) (e p : Nat)
    (d : Candidate) : (processCandidate ctx c e p d).2.1 = e + 1 := by
  rcases hw : candWebsite c with u | sw
  · rw [processCandidate, hw]
  · rw [processCandidate, hw]
    dsimp only
    split <;> rfl

theorem processCandidate_perCtr_le (ctx : SireneCtx) (c : DetailRecord) (e p : Nat)
    (d : Candidate) : p ≤ (processCandidate ctx c e p d).2.2 := by
  rcases hw : candWebsite c with u | sw
  · rw [processCandidate, hw]
  · rw [processCandidate, hw]
    dsimp only
    split
    · exact Nat.le_refl p
    · dsimp only
      rw [(issuePrincipals_spec c.nom (entId (e + 1)) (keptDirigeants ctx d) p).1]
      omega

theorem processCandidate_not_pushed_perCtr (ctx : SireneCtx) (c : DetailRecord) (e p : Nat)
    (d : Candidate) (out : CandOutcome) (e1 p1 : Nat)
    (h : processCandidate ctx c e p d = (out, e1, p1))
    (hout : ∀ r, out ≠ CandOutcome.pushed r) : p1 = p := by
  rcases hw : candWebsite c with u | sw
  · rw [processCandidate, hw] at h
    cases h
    rfl
  · rw [processCandidate, hw] at h
    dsimp only at h
    split at h
    · cases h; rfl
    · cases h; exact absurd rfl (hout _)

theorem processCandidate_pushed (ctx : SireneCtx) (c : DetailRecord) (e p : Nat)
    (d : Candidate) (r : EnrichedRecord) (e1 p1 : Nat)
    (h : processCandidate ctx c e p d = (CandOutcome.pushed r, e1, p1)) :
    p ≤ p1 ∧
    r.id = some (entId (e + 1)) ∧
    r.scrap_nom = some c.nom ∧
    r.dirigeants.map (fun q => q.id) = idsRange perId p p1 ∧
    ∀ q ∈ r.dirigeants, q.idEntreprise = entId (e + 1) ∧ q.entreprise = c.nom := by
  obtain ⟨hctr, hmap, hcons⟩ :=
    issuePrincipals_spec c.nom (entId (e + 1)) (keptDirigeants ctx d) p
  rcases hw : candWebsite c with u | sw
  · rw [processCandidate, hw] at h
    cases h
  · rw [processCandidate, hw] at h
    dsimp only at h
    split at h
    · cases h
    · simp only [Prod.mk.injEq, CandOutcome.pushed.injEq] at h
      obtain ⟨hr, he1, hp1⟩ := h
      subst hr
      subst hp1
      rw [hctr]
      refine ⟨by omega, rfl, rfl, ?_, hcons⟩
      show (issuePrincipals c.nom (entId (e + 1)) p (keptDirigeants ctx d)).1.map
        (fun q => q.id) = _
      rw [hmap]

theorem candidateLoop_spec (ctx : SireneCtx) (c : DetailRecord) :
    ∀ (ds : List Candidate) (e p : Nat),
      e ≤ (candidateLoop ctx c ds e p).2.1 ∧
      p ≤ (candidateLoop ctx c ds e p).2.2 ∧
      principalIds (candidateLoop ctx c ds e p).1 =
        idsRange perId p (candidateLoop ctx c ds e p).2.2 ∧
      ∀ r ∈ (candidateLoop ctx c ds e p).1, r.scrap_nom = some c.nom ∧
        ∀ q ∈ r.dirigeants, some q.idEntreprise = r.id ∧ some q.entreprise = r.scrap_nom := by
  intro ds
  induction ds with
  | nil =>
    intro e p
    refine ⟨Nat.le_refl e, Nat.le_refl p, ?_, by intro r hr; simp [candidateLoop] at hr⟩
    simp [candidateLoop, idsRange_self, principalIds]
  | cons d rest ih =>
    intro e p
    have hect := processCandidate_entCtr ctx c e p d
    have hpct := processCandidate_perCtr_le ctx c e p d
    rw [candidateLoop]
    rcases hpc : processCandidate ctx c e p d with ⟨out, e1, p1⟩
    rw [hpc] at hect hpct
    dsimp only at hect hpct
    rcases out with r | _ | _
    · -- pushed
      dsimp only
      obtain ⟨hp1, hid, hnom, hmap, hq⟩ := processCandidate_pushed ctx c e p d r e1 p1 hpc
      obtain ⟨ihe, ihp, ihids, ihcons⟩ := ih e1 p1
      refine ⟨by omega, by omega, ?_, ?_⟩
      · show principalIds (r :: (candidateLoop ctx c rest e1 p1).1) = _
        have hr : principalIds [r] = idsRange perId p p1 := by
          simp [principalIds]
          rw [← hmap]
        calc principalIds (r :: (candidateLoop ctx c rest e1 p1).1)
            = principalIds [r] ++ principalIds (candidateLoop ctx c rest e1 p1).1 := by
              simp [principalIds]
          _ = idsRange perId p p1 ++ idsRange perId p1 (candidateLoop ctx c rest e1 p1).2.2 := by
              rw [hr, ihids]
          _ = idsRange perId p (candidateLoop ctx c rest e1 p1).2.2 :=
              idsRange_append perId p p1 _ hp1 ihp
      · intro rr hrr
        rcases List.mem_cons.1 hrr with rfl | hrr
        · refine ⟨hnom, ?_⟩
          intro q hq'
          obtain ⟨h1, h2⟩ := hq q hq'
          rw [h1, h2, hid, hnom]
          exact ⟨rfl, rfl⟩
        · exact ihcons rr hrr
    · -- skipped
      dsimp only
      have hpp : p1 = p :=
        processCandidate_not_pushed_perCtr ctx c e p d _ e1 p1 hpc (by intro r h; cases h)
      subst hpp
      obtain ⟨ihe, ihp, ihids, ihcons⟩ := ih e1 p1
      exact ⟨by omega, ihp, ihids, ihcons⟩
    · -- threw
      dsimp only
      have hpp : p1 = p :=
        processCandidate_not_pushed_perCtr ctx c e p d _ e1 p1 hpc (by intro r h; cases h)
      subst hpp
      refine ⟨by omega, Nat.le_refl _, ?_, by intro r hr; simp at hr⟩
      simp [principalIds, idsRange_self]

theorem sireneTry_spec (ctx : SireneCtx) (c : DetailRecord) (e p : Nat) :
    e ≤ (sireneTry ctx c e p).2.1 ∧
    p ≤ (sireneTry ctx c e p).2.2 ∧
    principalIds (sireneTry ctx c e p).1 = idsRange perId p (sireneTry ctx c e p).2.2 ∧
    ∀ r ∈ (sireneTry ctx c e p).1, r.scrap_nom = some c.nom ∧
      ∀ q ∈ r.dirigeants, some q.idEntreprise = r.id ∧ some q.entreprise = r.scrap_nom := by
  rw [sireneTry]
  by_cases hcp : (!strTruthy c.codePostal) = true
  · rw [if_pos hcp]
    exact ⟨Nat.le_refl e, Nat.le_refl p, by simp [principalIds, idsRange_self],
      by intro r hr; simp at hr⟩
  · rw [if_neg hcp]
    rcases hapi : ctx.api c with _ | results
    · exact ⟨Nat.le_refl e, Nat.le_refl p, by simp [principalIds, idsRange_self],
        by intro r hr; simp at hr⟩
    · exact candidateLoop_spec ctx c (matchFilter c results) e p

theorem sireneBody_spec (ctx : SireneCtx) (c : DetailRecord) (e p : Nat) :
    e ≤ (sireneBody ctx c e p).2.1 ∧
    p ≤ (sireneBody ctx c e p).2.2 ∧
    (sireneBody ctx c e p).1 ≠ [] ∧
    principalIds (sireneBody ctx c e p).1 = idsRange perId p (sireneBody ctx c e p).2.2 ∧
    ∀ r ∈ (sireneBody ctx c e p).1, r.scrap_nom = some c.nom ∧
      ∀ q ∈ r.dirigeants, some q.idEntreprise = r.id ∧ some q.entreprise = r.scrap_nom := by
  obtain ⟨h1, h2, h3, h4⟩ := sireneTry_spec ctx c e p
  rw [sireneBody]
  rcases hl : (sireneTry ctx c e p).1 with _ | ⟨r, rs⟩
  · rw [hl] at h3
    dsimp only [List.isEmpty_nil]
    refine ⟨h1, h2, by simp, ?_, ?_⟩
    · have hplace : principalIds [placeholderOf c] = [] := by
        simp [principalIds, placeholderOf]
      rw [if_pos rfl, hplace, ← h3]
      simp [principalIds]
    · rw [if_pos rfl]
      intro rec hrec
      rcases List.mem_singleton.1 hrec with rfl
      refine ⟨rfl, ?_⟩
      intro q hq
      simp [placeholderOf] at hq
  · rw [hl] at h3 h4
    dsimp only [List.isEmpty_cons]
    rw [if_neg (by simp)]
    exact ⟨h1, h2, by simp, h3, h4⟩

theorem sireneLoop_spec (ctx : SireneCtx) (done : List (Option String)) :
    ∀ (cs : List DetailRecord) (st : SireneState),
      ∃ app : List EnrichedRecord,
        (sireneLoop ctx done st cs).enriched = st.enriched ++ app ∧
        st.entCtr ≤ (sireneLoop ctx done st cs).entCtr ∧
        st.perCtr ≤ (sireneLoop ctx done st cs).perCtr ∧
        principalIds app = idsRange perId st.perCtr (sireneLoop ctx done st cs).perCtr ∧
        ∀ r ∈ app, ∀ q ∈ r.dirigeants,
          some q.idEntreprise = r.id ∧ some q.entreprise = r.scrap_nom := by
  intro cs
  induction cs with
  | nil =>
    intro st
    refine ⟨[], by simp [sireneLoop], Nat.le_refl _, Nat.le_refl _, ?_,
      by intro r hr; simp at hr⟩
    simp [sireneLoop, principalIds, idsRange_self]
  | cons c rest ih =>
    intro st
    have hfold : sireneLoop ctx done st (c :: rest) =
        sireneLoop ctx done (stepCompany ctx done st c) rest := by
      simp [sireneLoop]
    rw [hfold]
    by_cases hd : done.contains (some c.nom) = true
    · have hstep : stepCompany ctx done st c = st := by
        rw [stepCompany, hd, if_pos rfl]
      rw [hstep]
      exact ih st
    · have hd' : done.contains (some c.nom) = false := by
        cases h : done.contains (some c.nom)
        · rfl
        · exact absurd h hd
      have hstep : stepCompany ctx done st c =
          { enriched := st.enriched ++ (sireneBody ctx c st.entCtr st.perCtr).1,
            entCtr := (sireneBody ctx c st.entCtr st.perCtr).2.1,
            perCtr := (sireneBody ctx c st.entCtr st.perCtr).2.2,
            saves := st.saves ++
              [st.enriched ++ (sireneBody ctx c st.entCtr st.perCtr).1] } := by
        rw [stepCompany, hd', if_neg Bool.false_ne_true]
      obtain ⟨b1, b2, bne, bids, bcons⟩ := sireneBody_spec ctx c st.entCtr st.perCtr
      rw [hstep]
      obtain ⟨app, ha1, ha2, ha3, ha4, ha5⟩ := ih
        { enriched := st.enriched ++ (sireneBody ctx c st.entCtr st.perCtr).1,
          entCtr := (sireneBody ctx c st.entCtr st.perCtr).2.1,
          perCtr := (sireneBody ctx c st.entCtr st.perCtr).2.2,
          saves := st.saves ++
            [st.enriched ++ (sireneBody ctx c st.entCtr st.perCtr).1] }
      dsimp only at ha1 ha2 ha3 ha4
      refine ⟨(sireneBody ctx c st.entCtr st.perCtr).1 ++ app, ?_, ?_, ?_, ?_, ?_⟩
      · rw [ha1, List.append_assoc]
      · omega
      · omega
      · rw [principalIds_append, bids, ha4]
        exact idsRange_append perId _ _ _ b2 ha3
      · intro r hr
        rcases List.mem_append.1 hr with hr | hr
        · exact (bcons r hr).2
        · exact ha5 r hr

/-- The final principal counter equals the sum of the `dirigeants` lengths of
the final checkpoint: every principal-counter increment stores exactly one
principal, and the seed is that same sum over the initial checkpoint. -/
theorem sirene_perCtr_eq_sum (ctx : SireneCtx) (details : List DetailRecord)
    (e0 : List EnrichedRecord) :
    (enrichWithSirene ctx details e0).perCtr =
      ((enrichWithSirene ctx details e0).enriched.map (fun r => r.dirigeants.length)).sum := by
  obtain ⟨app, h1, h2, h3, h4, h5⟩ :=
    sireneLoop_spec ctx (e0.map (fun r => r.scrap_nom)) details
      { enriched := e0, entCtr := e0.length,
        perCtr := (e0.map (fun r => r.dirigeants.length)).sum, saves := [] }
  dsimp only at h1 h3 h4
  have hlen := congrArg List.length h4
  rw [principalIds_length, idsRange_length] at hlen
  rw [enrichWithSirene, h1, List.map_append, List.sum_append]
  omega

/-- C1: for every DetailRecord processed by the SIRENE stage (its name not in
the done set), at least one record is appended to the enriched checkpoint and
the checkpoint is persisted; whenever zero candidates survive — no postal
code, a failed lookup, or no candidate passing the name filter — exactly one
placeholder is appended, carrying the record's fields under the `scrap_`
prefix, a null `sirene_siren` and an empty `dirigeants` list. -/
theorem sirene_appends_at_least_one (ctx : SireneCtx) (done : List (Option String))
    (st : SireneState) (c : DetailRecord)
    (hc : done.contains (some c.nom) = false) :
    ∃ newRecs : List EnrichedRecord,
      (stepCompany ctx done st c).enriched = st.enriched ++ newRecs ∧
      (stepCompany ctx done st c).saves = st.saves ++ [st.enriched ++ newRecs] ∧
      1 ≤ newRecs.length ∧
      ((sireneTry ctx c st.entCtr st.perCtr).1 = [] → newRecs = [placeholderOf c]) ∧
      (strTruthy c.codePostal = false → (sireneTry ctx c st.entCtr st.perCtr).1 = []) ∧
      (ctx.api c = SireneOutcome.fetchError → (sireneTry ctx c st.entCtr st.perCtr).1 = []) ∧
      (∀ results, ctx.api c = SireneOutcome.ok results → matchFilter c results = [] →
        (sireneTry ctx c st.entCtr st.perCtr).1 = []) ∧
      (placeholderOf c).scrap_nom = some c.nom ∧
      (placeholderOf c).scrap_lien = some c.lien ∧
      (placeholderOf c).scrap_website = c.website ∧
      (placeholderOf c).scrap_codePostal = c.codePostal ∧
      (placeholderOf c).sirene_siren = none ∧
      (placeholderOf c).dirigeants = [] := by
  have hstep : stepCompany ctx done st c =
      { enriched := st.enriched ++ (sireneBody ctx c st.entCtr st.perCtr).1,
        entCtr := (sireneBody ctx c st.entCtr st.perCtr).2.1,
        perCtr := (sireneBody ctx c st.entCtr st.perCtr).2.2,
        saves := st.saves ++
          [st.enriched ++ (sireneBody ctx c st.entCtr st.perCtr).1] } := by
    rw [stepCompany, hc, if_neg Bool.false_ne_true]
  obtain ⟨b1, b2, bne, bids, bcons⟩ := sireneBody_spec ctx c st.entCtr st.perCtr
  refine ⟨(sireneBody ctx c st.entCtr st.perCtr).1, by rw [hstep], by rw [hstep],
    List.length_pos.2 bne, ?_, ?_, ?_, ?_, rfl, rfl, rfl, rfl, rfl, rfl⟩
  · intro h
    simp [sireneBody, h]
  · intro h
    have hcond : (!strTruthy c.codePostal) = true := by rw [h]; rfl
    rw [sireneTry, if_pos hcond]
  · intro h
    rw [sireneTry]
    split
    · rfl
    · rw [h]
  · intro results hok hfil
    rw [sireneTry]
    split
    · rfl
    · rw [hok]
      dsimp only
      rw [hfil]
      rfl

/-- C10: the dirigeants-list consistency of the SIRENE output — every
principal appended by a run carries its owning record's id and the original
company name, and the principal ids appended are exactly the issued range
(so every issued principal id appears in the checkpoint). -/
theorem sirene_principal_consistency (ctx : SireneCtx) (details : List DetailRecord)
    (e0 : List EnrichedRecord) :
    ∃ app : List EnrichedRecord,
      (enrichWithSirene ctx details e0).enriched = e0 ++ app ∧
      (∀ r ∈ app, ∀ q ∈ r.dirigeants,
        some q.idEntreprise = r.id ∧ some q.entreprise = r.scrap_nom) ∧
      principalIds app =
        idsRange perId ((e0.map (fun r => r.dirigeants.length)).sum)
          (enrichWithSirene ctx details e0).perCtr := by
  obtain ⟨app, h1, h2, h3, h4, h5⟩ :=
    sireneLoop_spec ctx (e0.map (fun r => r.scrap_nom)) details
      { enriched := e0, entCtr := e0.length,
        perCtr := (e0.map (fun r => r.dirigeants.length)).sum, saves := [] }
  dsimp only at h1 h4
  exact ⟨app, by rw [enrichWithSirene]; exact h1, h5, by rw [enrichWithSirene]; exact h4⟩

/-- C1 witness: a concrete company with a fresh state is appended at least
one record. -/
theorem sirene_appends_at_least_one_witness :
    (([] : List (Option String)).contains (some sirB.nom) = false) ∧
    ∃ newRecs : List EnrichedRecord,
      (stepCompany sirCtx []
          { enriched := [], entCtr := 0, perCtr := 0, saves := [] } sirB).enriched
        = [] ++ newRecs ∧ 1 ≤ newRecs.length := by
  refine ⟨rfl, ?_⟩
  obtain ⟨n, h1, h2, h3, _⟩ := sirene_appends_at_least_one sirCtx []
    { enriched := [], entCtr := 0, perCtr := 0, saves := [] } sirB rfl
  exact ⟨n, h1, h3⟩

/-- C10 witness: the consistency statement at a concrete run that issues a
principal. -/
theorem sirene_principal_consistency_witness :
    (∃ app : List EnrichedRecord,
      (enrichWithSirene sirCtx [sirB] []).enriched = [] ++ app ∧
      (∀ r ∈ app, ∀ q ∈ r.dirigeants,
        some q.idEntreprise = r.id ∧ some q.entreprise = r.scrap_nom) ∧
      principalIds app =
        idsRange perId ((([] : List EnrichedRecord).map (fun r => r.dirigeants.length)).sum)
          (enrichWithSirene sirCtx [sirB] []).perCtr) ∧
    (enrichWithSirene sirCtx [sirB] []).perCtr = 1 :=
  ⟨sirene_principal_consistency sirCtx [sirB] [], by decide⟩

/-- C2 (counterexample): in a resumed run the entity-id counter, reseeded
from the number of checkpointed records, re-issues `ENT-00003`: `Alpha`'s two
candidates consumed ids `ENT-00001`/`ENT-00002` but were discarded by the
mandatory-field check (no website), so after `Beta` got `ENT-00003` the
checkpoint holds only two records; the resumed run seeds the counter at 2 and
gives `Gamma` the already-persisted id `ENT-00003`. -/
theorem sirene_entity_id_reissued_on_resume :
    ¬ ((idsRange entId ([] : List EnrichedRecord).length
          (enrichWithSirene sirCtx [sirA, sirB] []).entCtr ++
        idsRange entId (enrichWithSirene sirCtx [sirA, sirB] []).enriched.length
          (enrichWithSirene sirCtx [sirA, sirB, sirG]
            (enrichWithSirene sirCtx [sirA, sirB] []).enriched).entCtr).Nodup) ∧
    (enrichWithSirene sirCtx [sirA, sirB, sirG]
        (enrichWithSirene sirCtx [sirA, sirB] []).enriched).enriched.filterMap
      (fun r => r.id) = ["ENT-00003", "ENT-00003"] := by
  exact ⟨by decide, by decide⟩

/-- C2 (amended): across a full run with a simulated resume, all issued
principal ids are pairwise distinct, and the entity ids issued within each
single uninterrupted run are pairwise distinct (across the resume boundary
entity ids can collide, as the counterexample shows). -/
theorem sirene_ids_distinct_amended (ctx : SireneCtx) (d1 d2 : List DetailRecord)
    (e0 : List EnrichedRecord) :
    ((idsRange perId ((e0.map (fun r => r.dirigeants.length)).sum)
        (enrichWithSirene ctx d1 e0).perCtr ++
      idsRange perId
        (((enrichWithSirene ctx d1 e0).enriched.map (fun r => r.dirigeants.length)).sum)
        (enrichWithSirene ctx d2 (enrichWithSirene ctx d1 e0).enriched).perCtr).Nodup) ∧
    (idsRange entId e0.length (enrichWithSirene ctx d1 e0).entCtr).Nodup ∧
    (idsRange entId (enrichWithSirene ctx d1 e0).enriched.length
      (enrichWithSirene ctx d2 (enrichWithSirene ctx d1 e0).enriched).entCtr).Nodup := by
  refine ⟨?_, idsRange_nodup entId entId_injective _ _, idsRange_nodup entId entId_injective _ _⟩
  rw [← sirene_perCtr_eq_sum ctx d1 e0]
  obtain ⟨app1, g1, g2, g3, g4, g5⟩ :=
    sireneLoop_spec ctx (e0.map (fun r => r.scrap_nom)) d1
      { enriched := e0, entCtr := e0.length,
        perCtr := (e0.map (fun r => r.dirigeants.length)).sum, saves := [] }
  dsimp only at g3
  obtain ⟨app2, k1, k2, k3, k4, k5⟩ :=
    sireneLoop_spec ctx ((enrichWithSirene ctx d1 e0).enriched.map (fun r => r.scrap_nom)) d2
      { enriched := (enrichWithSirene ctx d1 e0).enriched,
        entCtr := (enrichWithSirene ctx d1 e0).enriched.length,
        perCtr := ((enrichWithSirene ctx d1 e0).enriched.map
          (fun r => r.dirigeants.length)).sum, saves := [] }
  dsimp only at k3
  have hr1 : enrichWithSirene ctx d1 e0 =
      sireneLoop ctx (e0.map (fun r => r.scrap_nom))
        { enriched := e0, entCtr := e0.length,
          perCtr := (e0.map (fun r => r.dirigeants.length)).sum, saves := [] } d1 := rfl
  have hr2 : enrichWithSirene ctx d2 (enrichWithSirene ctx d1 e0).enriched =
      sireneLoop ctx ((enrichWithSirene ctx d1 e0).enriched.map (fun r => r.scrap_nom))
        { enriched := (enrichWithSirene ctx d1 e0).enriched,
          entCtr := (enrichWithSirene ctx d1 e0).enriched.length,
          perCtr := ((enrichWithSirene ctx d1 e0).enriched.map
            (fun r => r.dirigeants.length)).sum, saves := [] } d2 := rfl
  have hmono1 : (e0.map (fun r => r.dirigeants.length)).sum ≤
      (enrichWithSirene ctx d1 e0).perCtr := by
    rw [hr1]
    exact g3
  have hmono2 : (enrichWithSirene ctx d1 e0).perCtr ≤
      (enrichWithSirene ctx d2 (enrichWithSirene ctx d1 e0).enriched).perCtr := by
    rw [sirene_perCtr_eq_sum ctx d1 e0, hr2]
    exact k3
  exact idsRange_append_nodup perId perId_injective _ _ _ hmono1 hmono2

/-! ## Financial-history derivation (claim C6) -/

theorem foldl_max_le (y : Int) : ∀ (ks : List Int) (k : Int), k ≤ y →
    (∀ x ∈ ks, x ≤ y) → ks.foldl max k ≤ y := by
  intro ks
  induction ks with
  | nil => intro k hk _; exact hk
  | cons a as ih =>
    intro k hk hks
    exact ih (max k a) (max_le hk (hks a (by simp)))
      (fun x hx => hks x (by simp [hx]))

theorem le_foldl_max : ∀ (ks : List Int) (k : Int),
    k ≤ ks.foldl max k ∧ ∀ x ∈ ks, x ≤ ks.foldl max k := by
  intro ks
  induction ks with
  | nil => intro k; exact ⟨le_refl k, by intro x hx; simp at hx⟩
  | cons a as ih =>
    intro k
    obtain ⟨h1, h2⟩ := ih (max k a)
    refine ⟨le_trans (le_max_left k a) h1, ?_⟩
    intro x hx
    rcases List.mem_cons.1 hx with rfl | hx
    · exact le_trans (le_max_right k x) h1
    · exact h2 x hx

theorem jsMax_eq (l : List Int) (y : Int) (hmem : y ∈ l) (hub : ∀ x ∈ l, x ≤ y) :
    jsMax l = JsNum.num y := by
  cases l with
  | nil => simp at hmem
  | cons k ks =>
    rw [jsMax]
    congr 1
    apply le_antisymm
    · exact foldl_max_le y ks k (hub k (by simp)) (fun x hx => hub x (by simp [hx]))
    · obtain ⟨h1, h2⟩ := le_foldl_max ks k
      rcases List.mem_cons.1 hmem with rfl | h
      · exact h1
      · exact h2 y h

/-- C6: for a candidate with a non-empty financial-history mapping the
derived latest year is the maximum numeric key and the derived revenue is the
`ca` value recorded under that year; with no financial history both derived
fields are empty; and the spec's concrete example derives revenue 200 for
year 2022. The last conjunct ties the two helpers to the fields of the built
match record. -/
theorem finance_latest_year_revenue
    (m : List (Int × FinanceEntry)) (y cval : Int) (e : FinanceEntry)
    (hmem : y ∈ m.map Prod.fst)
    (hub : ∀ k ∈ m.map Prod.fst, k ≤ y)
    (hpos : 0 < y)
    (hlook : m.lookup y = some e)
    (hca : e.ca = some cval) :
    latestYearOf (some m) = some (JsNum.num y) ∧
    sireneCaOf (some m) = some cval ∧
    latestYearOf none = none ∧
    sireneCaOf none = none ∧
    latestYearOf (some [(2021, { ca := some 100 }), (2022, { ca := some 200 })]) =
      some (JsNum.num 2022) ∧
    sireneCaOf (some [(2021, { ca := some 100 }), (2022, { ca := some 200 })]) = some 200 ∧
    (∀ (ctx : SireneCtx) (c : DetailRecord) (uid : String) (sw : Option String)
      (d : Candidate) (ps : List Principal),
      (buildMatchRecord ctx c uid sw d ps).sirene_ca = sireneCaOf d.finances ∧
      (buildMatchRecord ctx c uid sw d ps).sirene_annee_ca = latestYearOf d.finances) := by
  have hly : latestYearOf (some m) = some (JsNum.num y) := by
    show some (jsMax (m.map Prod.fst)) = some (JsNum.num y)
    rw [jsMax_eq (m.map Prod.fst) y hmem hub]
  refine ⟨hly, ?_, rfl, rfl, by decide, by decide, fun ctx c uid sw d ps => ⟨rfl, rfl⟩⟩
  rw [sireneCaOf, hly]
  have htr : jsNumTruthy (some (JsNum.num y)) = true := by
    simp [jsNumTruthy]
    omega
  rw [if_pos htr]
  rw [hlook]
  simp [hca]
  exact hly

/-- C6 witness: the spec's example run through the theorem. -/
theorem finance_latest_year_revenue_witness :
    latestYearOf (some [((2021 : Int), { ca := some 100 }),
      (2022, { ca := some 200 })]) = some (JsNum.num 2022) ∧
    sireneCaOf (some [((2021 : Int), { ca := some 100 }),
      (2022, { ca := some 200 })]) = some 200 := by
  obtain ⟨h1, h2, _⟩ := finance_latest_year_revenue
    [((2021 : Int), { ca := some 100 }), (2022, { ca := some 200 })]
    2022 200 { ca := some 200 }
    (by decide) (by decide) (by decide) (by decide) rfl
  exact ⟨h1, h2⟩

theorem linkedinProcess_base (w : NavWorld) (c : EnrichedRecord) :
    (linkedinProcess w c).base = c := by
  rw [linkedinProcess]
  split
  · rfl
  · rcases w.nav1 with _ | _ | _
    · rw [linkedinScan]
      dsimp only
      split
      · rfl
      · rcases w.ddg with _ | _ <;> rfl
    all_goals
      rcases w.nav2 with _ | _ | _
      · rw [linkedinScan]
        dsimp only
        split
        · rfl
        · rcases w.ddg with _ | _ <;> rfl
      · rfl
      · rfl

theorem linkedinLoop_spec (worlds : EnrichedRecord → NavWorld)
    (done : List (Option String)) :
    ∀ (cs : List EnrichedRecord) (st : LinkedinState),
      (cs.foldl (linkedinStep worlds done) st).finalData =
        st.finalData ++ (cs.filter (fun c => !done.contains c.scrap_nom)).map
          (fun c => linkedinProcess (worlds c) c) ∧
      (cs.foldl (linkedinStep worlds done) st).saves =
        st.saves ++ snapshots st.finalData
          ((cs.filter (fun c => !done.contains c.scrap_nom)).map
            (fun c => linkedinProcess (worlds c) c)) := by
  intro cs
  induction cs with
  | nil => intro st; exact ⟨by simp, by simp [snapshots]⟩
  | cons c rest ih =>
    intro st
    rw [List.foldl_cons]
    by_cases hd : done.contains c.scrap_nom = true
    · have hstep : linkedinStep worlds done st c = st := by
        rw [linkedinStep, hd, if_pos rfl]
      have hfil : (c :: rest).filter (fun c => !done.contains c.scrap_nom) =
          rest.filter (fun c => !done.contains c.scrap_nom) := by
        rw [List.filter_cons_of_neg]
        simpa using hd
      rw [hstep, hfil]
      exact ih st
    · have hd' : done.contains c.scrap_nom = false := by
        cases h : done.contains c.scrap_nom
        · rfl
        · exact absurd h hd
      have hstep : linkedinStep worlds done st c =
          { finalData := st.finalData ++ [linkedinProcess (worlds c) c],
            saves := st.saves ++ [st.finalData ++ [linkedinProcess (worlds c) c]] } := by
        rw [linkedinStep, hd', if_neg Bool.false_ne_true]
      have hfil : (c :: rest).filter (fun c => !done.contains c.scrap_nom) =
          c :: rest.filter (fun c => !done.contains c.scrap_nom) := by
        rw [List.filter_cons_of_pos]
        simpa using hd'
      rw [hstep, hfil]
      obtain ⟨ih1, ih2⟩ := ih
        { finalData := st.finalData ++ [linkedinProcess (worlds c) c],
          saves := st.saves ++ [st.finalData ++ [linkedinProcess (worlds c) c]] }
      dsimp only at ih1 ih2
      constructor
      · rw [ih1, List.map_cons, List.append_assoc]
        rfl
      · rw [ih2, List.map_cons, snapshots, List.append_assoc]
        rfl

/-- C5: the discovery stage processes exactly the records with a truthy
`sirene_siren` (placeholders, whose `sirene_siren` is null, are never given a
FinalRecord); for every eligible record whose name is not already in the
final checkpoint exactly one FinalRecord is appended, in order, and the
checkpoint snapshot written after each record is the list up to and
including that record. -/
theorem linkedin_exactly_one_per_eligible (worlds : EnrichedRecord → NavWorld)
    (allProcessed : List EnrichedRecord) (final0 : List FinalRecord) :
    (enrichWithLinkedIn worlds allProcessed final0).finalData =
      final0 ++ ((allProcessed.filter (fun c => strTruthy c.sirene_siren)).filter
        (fun c => !(final0.map (fun r => r.base.scrap_nom)).contains c.scrap_nom)).map
        (fun c => linkedinProcess (worlds c) c) ∧
    (enrichWithLinkedIn worlds allProcessed final0).saves =
      snapshots final0 (((allProcessed.filter (fun c => strTruthy c.sirene_siren)).filter
        (fun c => !(final0.map (fun r => r.base.scrap_nom)).contains c.scrap_nom)).map
        (fun c => linkedinProcess (worlds c) c)) ∧
    ∀ r ∈ ((allProcessed.filter (fun c => strTruthy c.sirene_siren)).filter
        (fun c => !(final0.map (fun r => r.base.scrap_nom)).contains c.scrap_nom)).map
        (fun c => linkedinProcess (worlds c) c),
      strTruthy r.base.sirene_siren = true ∧ r.base.sirene_siren ≠ none := by
  obtain ⟨h1, h2⟩ := linkedinLoop_spec worlds (final0.map (fun r => r.base.scrap_nom))
    (allProcessed.filter (fun c => strTruthy c.sirene_siren))
    { finalData := final0, saves := [] }
  dsimp only at h1 h2
  refine ⟨h1, ?_, ?_⟩
  · rw [enrichWithLinkedIn, h2]
    simp
  intro r hr
  rw [List.mem_map] at hr
  obtain ⟨c, hc, rfl⟩ := hr
  rw [List.mem_filter] at hc
  obtain ⟨hc1, _⟩ := hc
  rw [List.mem_filter] at hc1
  obtain ⟨_, hsir⟩ := hc1
  rw [linkedinProcess_base]
  refine ⟨hsir, ?_⟩
  intro hnone
  rw [hnone] at hsir
  exact absurd hsir (by simp [strTruthy])

/-- C3: with a usable website, a timeout-class navigation failure on both
attempts leaves the persisted profile URL empty (treated as not found), while
a non-timeout failure on the final attempt forces the persisted profile URL
to the hard-error sentinel (`'ERREUR'` in the source, the spec's `"ERROR"`),
regardless of any later step. -/
theorem linkedin_three_way_outcome (c : EnrichedRecord) (w : NavWorld)
    (hweb : linkedinWebsiteOk c = true) :
    (w.nav1 = NavResult.timeout → w.nav2 = NavResult.timeout →
      (linkedinProcess w c).linkedinUrl = "") ∧
    (w.nav1 ≠ NavResult.ok → w.nav2 = NavResult.hardErr →
      (linkedinProcess w c).linkedinUrl = "ERREUR") := by
  constructor
  · intro h1 h2
    rw [linkedinProcess, hweb, if_neg (by decide), h1, h2]
  · intro h1 h2
    rw [linkedinProcess, hweb, if_neg (by decide), h2]
    rcases hn1 : w.nav1 with _ | _ | _
    · exact absurd hn1 h1
    · rfl
    · rfl

/-- C3 witness: both outcomes at a concrete record and mocked navigations. -/
theorem linkedin_three_way_outcome_witness :
    (linkedinProcess liWorldTimeout liMatch).linkedinUrl = "" ∧
    (linkedinProcess liWorldHard liMatch).linkedinUrl = "ERREUR" :=
  ⟨(linkedin_three_way_outcome liMatch liWorldTimeout (by decide)).1 rfl rfl,
   (linkedin_three_way_outcome liMatch liWorldHard (by decide)).2 (by decide) rfl⟩

/-- C5 witness: a concrete run — one match record and one placeholder — where
exactly the match record receives a FinalRecord and the only snapshot is the
final list. -/
theorem linkedin_exactly_one_per_eligible_witness :
    (enrichWithLinkedIn (fun _ => liWorldTimeout) [liMatch, placeholderOf sirA] []).finalData
      = [] ++ [linkedinProcess liWorldTimeout liMatch] ∧
    ∀ r ∈ [linkedinProcess liWorldTimeout liMatch], strTruthy r.base.sirene_siren = true := by
  obtain ⟨h1, h2, h3⟩ :=
    linkedin_exactly_one_per_eligible (fun _ => liWorldTimeout) [liMatch, placeholderOf sirA] []
  constructor
  · rw [h1]
    rfl
  · intro r hr
    have hr' : r ∈ ((([liMatch, placeholderOf sirA].filter
        (fun c => strTruthy c.sirene_siren)).filter
        (fun c => !(([] : List FinalRecord).map (fun r => r.base.scrap_nom)).contains
          c.scrap_nom)).map (fun c => linkedinProcess ((fun _ => liWorldTimeout) c) c)) := by
      exact hr
    exact (h3 r hr').1

/-- C7: among the platform links collected on the page, a `/company/` link is
always selected in preference to any other; only when no `/company/` link
exists is the first remaining platform link accepted; and on the spec's
example page the `/company/` link wins. -/
theorem link_scan_company_priority (links : List String) :
    ((links.filter (fun h => jsIncludes h "/company/")) ≠ [] →
      jsIncludes (selectSiteLink links) "/company/" = true ∧ selectSiteLink links ∈ links) ∧
    ((links.filter (fun h => jsIncludes h "/company/")) = [] →
      selectSiteLink links = links.headD "") ∧
    selectSiteLink ["https://platform.com/in/jdoe", "https://platform.com/company/acme"] =
      "https://platform.com/company/acme" := by
  refine ⟨?_, ?_, by decide⟩
  · intro hne
    rcases hcm : links.filter (fun h => jsIncludes h "/company/") with _ | ⟨x, xs⟩
    · exact absurd hcm hne
    · rw [selectSiteLink, hcm]
      dsimp only
      have hx : x ∈ links.filter (fun h => jsIncludes h "/company/") := by
        rw [hcm]
        exact List.mem_cons_self x xs
      rw [List.mem_filter] at hx
      exact ⟨hx.2, hx.1⟩
  · intro hcm
    rw [selectSiteLink, hcm]
    dsimp only
    have hother : links.filter (fun h => !jsIncludes h "/company/") = links := by
      rw [List.filter_eq_self]
      intro a ha
      have := List.filter_eq_nil_iff.1 hcm a ha
      simp at this ⊢
      exact this
    rw [hother]
    cases links <;> rfl

/-- C7 witness: the theorem applied to the spec's example link list. -/
theorem link_scan_company_priority_witness :
    jsIncludes (selectSiteLink
      ["https://platform.com/in/jdoe", "https://platform.com/company/acme"]) "/company/" = true ∧
    selectSiteLink ["https://platform.com/in/jdoe", "https://platform.com/company/acme"]
      ∈ ["https://platform.com/in/jdoe", "https://platform.com/company/acme"] :=
  (link_scan_company_priority
    ["https://platform.com/in/jdoe", "https://platform.com/company/acme"]).1 (by decide)

theorem detailsLoop_finalData (adapter : String → Option DetailPayload)
    (done : List String) :
    ∀ (urls : List UrlItem) (st : DetailsState),
      (urls.foldl (detailsStep adapter done) st).details =
        st.details ++ (urls.filter (fun i => !done.contains i.lien)).filterMap
          (fun i => (adapter i.lien).map (mkDetail i)) := by
  intro urls
  induction urls with
  | nil => intro st; simp
  | cons i rest ih =>
    intro st
    rw [List.foldl_cons]
    by_cases hd : done.contains i.lien = true
    · have hstep : detailsStep adapter done st i = st := by
        rw [detailsStep, hd, if_pos rfl]
      have hfil : (i :: rest).filter (fun i => !done.contains i.lien) =
          rest.filter (fun i => !done.contains i.lien) := by
        rw [List.filter_cons_of_neg]
        simpa using hd
      rw [hstep, hfil]
      exact ih st
    · have hd' : done.contains i.lien = false := by
        cases h : done.contains i.lien
        · rfl
        · exact absurd h hd
      have hfil : (i :: rest).filter (fun i => !done.contains i.lien) =
          i :: rest.filter (fun i => !done.contains i.lien) := by
        rw [List.filter_cons_of_pos]
        simpa using hd'
      rw [hfil]
      rcases ha : adapter i.lien with _ | p
      · have hstep : detailsStep adapter done st i = st := by
          rw [detailsStep, hd', if_neg Bool.false_ne_true, ha]
        rw [hstep, ih st, List.filterMap_cons, ha]
        rfl
      · have hstep : detailsStep adapter done st i =
            { details := st.details ++ [mkDetail i p],
              saves := st.saves ++ [st.details ++ [mkDetail i p]] } := by
          rw [detailsStep, hd', if_neg Bool.false_ne_true, ha]
        rw [hstep, ih, List.filterMap_cons, ha]
        dsimp only
        rw [List.append_assoc]
        rfl

theorem detailsLoop_skips_all (adapter : String → Option DetailPayload)
    (done : List String) :
    ∀ (urls : List UrlItem) (st : DetailsState),
      (∀ i ∈ urls, done.contains i.lien = true ∨ adapter i.lien = none) →
      urls.foldl (detailsStep adapter done) st = st := by
  intro urls
  induction urls with
  | nil => intro st _; rfl
  | cons i rest ih =>
    intro st hall
    rw [List.foldl_cons]
    have hstep : detailsStep adapter done st i = st := by
      rcases hall i (by simp) with h | h
      · rw [detailsStep, h, if_pos rfl]
      · rw [detailsStep]
        split
        · rfl
        · rw [h]
    rw [hstep]
    exact ih st (fun j hj => hall j (by simp [hj]))

/-- C4: running the Detail Fetch stage a second time over the same URL list
with the same adapter outcomes changes nothing — the second run's checkpoint
equals the first run's, and the second run performs no checkpoint write at
all, so no duplicate entry for a link is ever appended. -/
theorem details_resume_idempotent (adapter : String → Option DetailPayload)
    (urls : List UrlItem) (d0 : List DetailRecord) :
    (runGetDetailsStep adapter urls (runGetDetailsStep adapter urls d0).details).details =
      (runGetDetailsStep adapter urls d0).details ∧
    (runGetDetailsStep adapter urls (runGetDetailsStep adapter urls d0).details).saves = [] := by
  have hall : ∀ i ∈ urls,
      ((runGetDetailsStep adapter urls d0).details.map (fun r => r.lien)).contains i.lien = true ∨
      adapter i.lien = none := by
    intro i hi
    rcases ha : adapter i.lien with _ | p
    · exact Or.inr rfl
    · left
      have hd1 : (runGetDetailsStep adapter urls d0).details =
          d0 ++ (urls.filter (fun i => !(d0.map (fun r => r.lien)).contains i.lien)).filterMap
            (fun i => (adapter i.lien).map (mkDetail i)) := by
        rw [runGetDetailsStep]
        exact detailsLoop_finalData adapter (d0.map (fun r => r.lien)) urls
          { details := d0, saves := [] }
      have hmem : i.lien ∈ (runGetDetailsStep adapter urls d0).details.map
          (fun r => r.lien) := by
        by_cases h0 : (d0.map (fun r => r.lien)).contains i.lien = true
        · rw [hd1, List.map_append]
          apply List.mem_append_left
          simpa using h0
        · have h0' : (d0.map (fun r => r.lien)).contains i.lien = false := by
            cases h : (d0.map (fun r => r.lien)).contains i.lien
            · rfl
            · exact absurd h h0
          have hApp : mkDetail i p ∈
              (urls.filter (fun i => !(d0.map (fun r => r.lien)).contains i.lien)).filterMap
                (fun i => (adapter i.lien).map (mkDetail i)) := by
            rw [List.mem_filterMap]
            refine ⟨i, ?_, by rw [ha]; rfl⟩
            rw [List.mem_filter]
            exact ⟨hi, by rw [h0']; rfl⟩
          rw [hd1, List.map_append]
          apply List.mem_append_right
          rw [List.mem_map]
          exact ⟨mkDetail i p, hApp, rfl⟩
      simpa using hmem
  have hskip : urls.foldl (detailsStep adapter
      ((runGetDetailsStep adapter urls d0).details.map (fun r => r.lien)))
      { details := (runGetDetailsStep adapter urls d0).details, saves := [] } =
      { details := (runGetDetailsStep adapter urls d0).details, saves := [] } :=
    detailsLoop_skips_all adapter _ urls _ hall
  constructor
  · rw [runGetDetailsStep, hskip]
  · rw [runGetDetailsStep, hskip]

/-- C8 (counterexample): with an unwritable checkpoint directory the run
still exits 0 — the write was attempted and failed (`rawWriteStep` errors),
`setStep` swallowed the failure, the file is unchanged and the in-memory
array grew, yet nothing aborted. -/
theorem checkpoint_write_failure_not_fatal_cex :
    mainExitCode true false c8adapter [c8item] CheckpointFile.missing = 0 ∧
    rawWriteStep DetailRecord false
      (getStep DetailRecord CheckpointFile.missing ++ [mkDetail c8item c8payload]) =
      Except.error "EACCES" ∧
    (runGetDetailsStepFS c8adapter false [c8item] CheckpointFile.missing).1 =
      CheckpointFile.missing ∧
    (runGetDetailsStepFS c8adapter false [c8item] CheckpointFile.missing).2 =
      [mkDetail c8item c8payload] := by
  exact ⟨by decide, rfl, by decide, by decide⟩

/-- C8 (amended): a checkpoint write failure is caught inside `setStep` and
only logged — the file keeps its previous state, the stage loop continues and
the run exits 0; only an error that escapes the stages, such as an
unresolvable adapter module, aborts the run with exit code 1. -/
theorem checkpoint_write_failure_behavior (writable : Bool)
    (adapter : String → Option DetailPayload) (urls : List UrlItem)
    (f0 : CheckpointFile DetailRecord) (data : List DetailRecord) :
    mainExitCode true writable adapter urls f0 = 0 ∧
    mainExitCode false writable adapter urls f0 = 1 ∧
    setStep DetailRecord false f0 data = f0 :=
  ⟨rfl, rfl, rfl⟩

/-- C9: reading a missing, unreadable or unparsable checkpoint file returns
the empty sequence instead of failing, so a corrupt checkpoint silently
restarts its stage from zero progress (the SIRENE stage run against a
corrupt checkpoint behaves exactly as against an empty one), and any
successful save overwrites the corrupt file with the full new sequence. -/
theorem getStep_bad_file_empty :
    (∀ (α : Type), getStep α CheckpointFile.missing = [] ∧
      getStep α CheckpointFile.unreadable = [] ∧
      getStep α CheckpointFile.corrupt = []) ∧
    (∀ (α : Type) (f : CheckpointFile α) (d : List α),
      setStep α true f d = CheckpointFile.parsed d) ∧
    (∀ (ctx : SireneCtx) (details : List DetailRecord),
      enrichWithSirene ctx details (getStep EnrichedRecord CheckpointFile.corrupt) =
        enrichWithSirene ctx details []) :=
  ⟨fun _ => ⟨rfl, rfl, rfl⟩, fun _ _ _ => rfl, fun _ _ => rfl⟩

end Scrap
